import Mathlib

/-!
Verification of the appointment route-optimization core
(`chupert91/appointment-optimizer`).

The embedded functions are shallow translations of the TypeScript route
optimizer: the round-trip optimizer `optimizeRoundTripRoute`, its constrained
constructor `optimizeSingleRoute` and `calculateRoundTripDistance`, the
open-path optimizer `optimizeRoute` and `calculateTotalDistance`, the schedule
generator `generateAppointmentTimes`, the distance-matrix fallback
`calculateDistanceMatrix`, and the per-cell matrix construction of the
distance-matrix API route.

The source computes point-to-point distances with a fixed haversine formula
(`calculateDistance`) over IEEE doubles.  The optimizers consume that function
only through comparisons and sums, so the embedding abstracts it as an
arbitrary rational-valued function `dist : Coordinates → Coordinates → ℚ`;
where a theorem needs a metric fact of the haversine formula (non-negativity,
`dist c c = 0`) it takes that fact as an explicit hypothesis, mirroring the
contract stated for the geometric estimator.  Wall-clock times are minute
counts (`ℤ`), as the source only ever adds whole minutes to its `Date` value.
-/

namespace AppointmentOptimizer

/-- A latitude/longitude pair, as the source's `Coordinates` interface. -/
structure Coordinates where
  lat : ℚ
  lng : ℚ
deriving DecidableEq, Inhabited

/-- One appointment (the source's `AppointmentData`).  Only the fields the
optimizer inspects are kept: `id` (identity, used by the forced-final skip
test), `duration` (service minutes), and the coordinates.  The remaining
fields (`client`, `address`, `appointmentType`, `notes`) are opaque
passthrough data that no embedded function reads. -/
structure AppointmentData where
  id : String
  duration : ℤ
  latitude : ℚ
  longitude : ℚ
deriving DecidableEq, Inhabited

/-- The coordinate object `{ lat: apt.latitude, lng: apt.longitude }` that the
source builds whenever it measures a distance to an appointment. -/
def coordOf (a : AppointmentData) : Coordinates :=
  ⟨a.latitude, a.longitude⟩

/-- The source's `forEach` scan that finds the nearest candidate: it walks the
`unvisited` list carrying the running position `i`, the best index and the
best distance found so far (`none` models the initial `Infinity`), skipping
elements on which `skip` holds and replacing the best on a strictly smaller
distance. -/
def selectLoop (dist : Coordinates → Coordinates → ℚ) (skip : AppointmentData → Bool)
    (cur : Coordinates) : List AppointmentData → ℕ → ℕ × Option ℚ → ℕ × Option ℚ
  | [], _, best => best
  | a :: rest, i, best =>
      if skip a then
        selectLoop dist skip cur rest (i + 1) best
      else
        match best with
        | (_, none) => selectLoop dist skip cur rest (i + 1) (i, some (dist cur (coordOf a)))
        | (bi, some b) =>
            if dist cur (coordOf a) < b then
              selectLoop dist skip cur rest (i + 1) (i, some (dist cur (coordOf a)))
            else
              selectLoop dist skip cur rest (i + 1) (bi, some b)

/-- The scan either returns its accumulator untouched, or returns the position
(and distance) of some non-skipped element of the list. -/
lemma selectLoop_spec (dist : Coordinates → Coordinates → ℚ) (skip : AppointmentData → Bool)
    (cur : Coordinates) :
    ∀ (l : List AppointmentData) (i : ℕ) (acc : ℕ × Option ℚ),
      selectLoop dist skip cur l i acc = acc ∨
      ∃ j : ℕ, ∃ hj : j < l.length, skip (l.get ⟨j, hj⟩) = false ∧
        (selectLoop dist skip cur l i acc).1 = i + j ∧
        (selectLoop dist skip cur l i acc).2 = some (dist cur (coordOf (l.get ⟨j, hj⟩))) := by
  intro l
  induction l with
  | nil => intro i acc; left; rfl
  | cons a rest ih =>
    intro i acc
    by_cases hs : skip a = true
    · rw [show selectLoop dist skip cur (a :: rest) i acc
          = selectLoop dist skip cur rest (i + 1) acc by simp [selectLoop, hs]]
      rcases ih (i + 1) acc with h | ⟨j, hj, hskip, h1, h2⟩
      · exact Or.inl h
      · right
        refine ⟨j + 1, by simpa using Nat.succ_lt_succ hj, by simpa using hskip, ?_, ?_⟩
        · rw [h1]; omega
        · simpa using h2
    · have hstep : ∀ b' : ℕ × Option ℚ,
          (selectLoop dist skip cur rest (i + 1) b' = b' ∨
            ∃ j : ℕ, ∃ hj : j < rest.length, skip (rest.get ⟨j, hj⟩) = false ∧
              (selectLoop dist skip cur rest (i + 1) b').1 = (i + 1) + j ∧
              (selectLoop dist skip cur rest (i + 1) b').2
                = some (dist cur (coordOf (rest.get ⟨j, hj⟩)))) := ih (i + 1)
      have hnew : ∀ hres : selectLoop dist skip cur (a :: rest) i acc
            = selectLoop dist skip cur rest (i + 1) (i, some (dist cur (coordOf a))),
          (selectLoop dist skip cur (a :: rest) i acc = acc ∨
            ∃ j : ℕ, ∃ hj : j < (a :: rest).length, skip ((a :: rest).get ⟨j, hj⟩) = false ∧
              (selectLoop dist skip cur (a :: rest) i acc).1 = i + j ∧
              (selectLoop dist skip cur (a :: rest) i acc).2
                = some (dist cur (coordOf ((a :: rest).get ⟨j, hj⟩)))) := by
        intro hres
        rcases hstep (i, some (dist cur (coordOf a))) with h | ⟨j, hj, hskip, h1, h2⟩
        · right
          refine ⟨0, by simp, by simpa using hs, ?_, ?_⟩
          · rw [hres, h]; simp
          · rw [hres, h]; simp
        · right
          refine ⟨j + 1, by simpa using Nat.succ_lt_succ hj, by simpa using hskip, ?_, ?_⟩
          · rw [hres, h1]; omega
          · rw [hres]; simpa using h2
      match hacc : acc with
      | (bi, none) =>
        exact hnew (by simp [selectLoop, hs])
      | (bi, some b) =>
        by_cases hlt : dist cur (coordOf a) < b
        · exact hnew (by simp [selectLoop, hs, hlt])
        · rw [show selectLoop dist skip cur (a :: rest) i (bi, some b)
              = selectLoop dist skip cur rest (i + 1) (bi, some b) by
                simp [selectLoop, hs, hlt]]
          rcases hstep (bi, some b) with h | ⟨j, hj, hskip, h1, h2⟩
          · exact Or.inl h
          · right
            refine ⟨j + 1, by simpa using Nat.succ_lt_succ hj, by simpa using hskip, ?_, ?_⟩
            · rw [h1]; omega
            · simpa using h2

/-- Once a finite best distance is held, the scan always returns a finite best
distance. -/
lemma selectLoop_snd_isSome_of_some (dist : Coordinates → Coordinates → ℚ)
    (skip : AppointmentData → Bool) (cur : Coordinates) :
    ∀ (l : List AppointmentData) (i bi : ℕ) (b : ℚ),
      ∃ m, (selectLoop dist skip cur l i (bi, some b)).2 = some m := by
  intro l
  induction l with
  | nil => intro i bi b; exact ⟨b, rfl⟩
  | cons a rest ih =>
    intro i bi b
    by_cases hs : skip a = true
    · simpa [selectLoop, hs] using ih (i + 1) bi b
    · by_cases hlt : dist cur (coordOf a) < b
      · simpa [selectLoop, hs, hlt] using ih (i + 1) i (dist cur (coordOf a))
      · simpa [selectLoop, hs, hlt] using ih (i + 1) bi b

/-- If some element of the list is not skipped, the scan started at `Infinity`
ends with a finite best distance. -/
lemma selectLoop_snd_isSome (dist : Coordinates → Coordinates → ℚ)
    (skip : AppointmentData → Bool) (cur : Coordinates) :
    ∀ (l : List AppointmentData) (i bi : ℕ),
      (∃ a ∈ l, skip a = false) →
      ∃ m, (selectLoop dist skip cur l i (bi, none)).2 = some m := by
  intro l
  induction l with
  | nil => intro i bi h; simp at h
  | cons a rest ih =>
    intro i bi h
    by_cases hs : skip a = true
    · have : ∃ a ∈ rest, skip a = false := by
        rcases h with ⟨x, hx, hxs⟩
        rcases List.mem_cons.mp hx with rfl | hx'
        · exact absurd hs (by simp [hxs])
        · exact ⟨x, hx', hxs⟩
      simpa [selectLoop, hs] using ih (i + 1) bi this
    · simpa [selectLoop, hs] using
        selectLoop_snd_isSome_of_some dist skip cur rest (i + 1) i (dist cur (coordOf a))

/-- If no remaining element beats the held best distance, the scan leaves the
accumulator unchanged. -/
lemma selectLoop_frozen (dist : Coordinates → Coordinates → ℚ)
    (skip : AppointmentData → Bool) (cur : Coordinates) :
    ∀ (l : List AppointmentData) (i bi : ℕ) (b : ℚ),
      (∀ a ∈ l, ¬ dist cur (coordOf a) < b) →
      selectLoop dist skip cur l i (bi, some b) = (bi, some b) := by
  intro l
  induction l with
  | nil => intro i bi b _; rfl
  | cons a rest ih =>
    intro i bi b h
    have ha : ¬ dist cur (coordOf a) < b := h a (by simp)
    have hrest : ∀ x ∈ rest, ¬ dist cur (coordOf x) < b := fun x hx => h x (by simp [hx])
    by_cases hs : skip a = true
    · simpa [selectLoop, hs] using ih (i + 1) bi b hrest
    · simpa [selectLoop, hs, ha] using ih (i + 1) bi b hrest

/-- The index returned by the scan (started at position `0` with `Infinity`)
is a valid index of a non-empty list. -/
lemma selectLoop_fst_lt (dist : Coordinates → Coordinates → ℚ)
    (skip : AppointmentData → Bool) (cur : Coordinates) (l : List AppointmentData)
    (h : l ≠ []) :
    (selectLoop dist skip cur l 0 (0, none)).1 < l.length := by
  rcases selectLoop_spec dist skip cur l 0 (0, none) with heq | ⟨j, hj, _, h1, _⟩
  · rw [heq]; exact List.length_pos.mpr h
  · rw [h1]; omega

/-- Taking the `i`-th element out in front of `eraseIdx i` permutes the list. -/
lemma get_cons_eraseIdx_perm {α : Type} : ∀ (l : List α) (i : ℕ) (h : i < l.length),
    List.Perm (l.get ⟨i, h⟩ :: l.eraseIdx i) l := by
  intro l
  induction l with
  | nil => intro i h; simp at h
  | cons a t ih =>
    intro i h
    cases i with
    | zero => simp [List.eraseIdx]
    | succ i =>
      have hi : i < t.length := by simpa using h
      have h1 : (a :: t).get ⟨i + 1, h⟩ :: (a :: t).eraseIdx (i + 1)
          = t.get ⟨i, hi⟩ :: a :: t.eraseIdx i := by simp [List.eraseIdx]
      rw [h1]
      exact (List.Perm.swap a (t.get ⟨i, hi⟩) (t.eraseIdx i)).trans
        (List.Perm.cons a (ih i hi))

/-- The greedy nearest-neighbor loop of the source's `optimizeRoute`: while
stops remain unvisited, pick the nearest one (first index on ties, via the
strict comparison of `selectLoop`), remove it, append it, and continue from
its coordinates. -/
def nnGo (dist : Coordinates → Coordinates → ℚ) (cur : Coordinates)
    (unvisited : List AppointmentData) : List AppointmentData :=
  if h : unvisited = [] then []
  else
    let a := unvisited.get
      ⟨(selectLoop dist (fun _ => false) cur unvisited 0 (0, none)).1,
        selectLoop_fst_lt dist (fun _ => false) cur unvisited h⟩
    a :: nnGo dist (coordOf a)
      (unvisited.eraseIdx (selectLoop dist (fun _ => false) cur unvisited 0 (0, none)).1)
termination_by unvisited.length
decreasing_by
  have := List.length_eraseIdx_add_one
    (selectLoop_fst_lt dist (fun _ => false) cur unvisited h)
  omega

/-- The source's `optimizeRoute` (open-path nearest-neighbor solver): lists of
at most one appointment are returned unchanged; otherwise the greedy loop runs
from the starting location if given, else from the first appointment's
coordinates. -/
def optimizeRoute (dist : Coordinates → Coordinates → ℚ)
    (appointments : List AppointmentData) (startLocation : Option Coordinates) :
    List AppointmentData :=
  if appointments.length ≤ 1 then appointments
  else
    nnGo dist (startLocation.getD (coordOf appointments.headI)) appointments

/-- The greedy loop emits a permutation of its unvisited pool. -/
lemma nnGo_perm (dist : Coordinates → Coordinates → ℚ) :
    ∀ (n : ℕ) (l : List AppointmentData) (cur : Coordinates), l.length = n →
      List.Perm (nnGo dist cur l) l := by
  intro n
  induction n using Nat.strong_induction_on with
  | _ n ih =>
    intro l cur hn
    by_cases h : l = []
    · subst h; rw [nnGo]; simp
    · rw [nnGo]
      simp only [h, dite_false]
      have hi := selectLoop_fst_lt dist (fun _ => false) cur l h
      have hlen := List.length_eraseIdx_add_one hi
      have hrec := ih (l.eraseIdx (selectLoop dist (fun _ => false) cur l 0 (0, none)).1).length
        (by omega) (l.eraseIdx (selectLoop dist (fun _ => false) cur l 0 (0, none)).1)
        (coordOf (l.get ⟨_, hi⟩)) rfl
      exact (List.Perm.cons _ hrec).trans (get_cons_eraseIdx_perm l _ hi)

/-- A concrete executable distance function used by the witness theorems: the
taxicab distance on coordinates.  Like the source's haversine formula it is
non-negative, symmetric and zero on equal points. -/
def exDist (p q : Coordinates) : ℚ :=
  |p.lat - q.lat| + |p.lng - q.lng|

lemma exDist_nonneg (p q : Coordinates) : 0 ≤ exDist p q :=
  add_nonneg (abs_nonneg _) (abs_nonneg _)

lemma exDist_self (c : Coordinates) : exDist c c = 0 := by
  simp [exDist]

/-- Concrete appointments for the witness theorems. -/
def exApt1 : AppointmentData := ⟨"a1", 30, 0, 1⟩

def exApt2 : AppointmentData := ⟨"a2", 45, 0, 5⟩

def exApt3 : AppointmentData := ⟨"a3", 60, 2, 2⟩

def exOrigin : Coordinates := ⟨0, 0⟩

/-- C2: for every non-empty appointment list and any optional starting
location, the open-path nearest-neighbor optimizer `optimizeRoute` returns a
permutation of its input: same length, exactly the input appointments, none
omitted and none duplicated. -/
theorem optimizeRoute_perm (dist : Coordinates → Coordinates → ℚ)
    (appointments : List AppointmentData) (startLocation : Option Coordinates)
    (h : appointments ≠ []) :
    List.Perm (optimizeRoute dist appointments startLocation) appointments := by
  unfold optimizeRoute
  by_cases hl : appointments.length ≤ 1
  · simp [hl]
  · simp only [hl, if_false]
    exact nnGo_perm dist appointments.length appointments _ rfl

/-- Witness for C2 at a concrete two-appointment input. -/
theorem optimizeRoute_perm_witness :
    List.Perm (optimizeRoute exDist [exApt1, exApt2] (some exOrigin)) [exApt1, exApt2] :=
  optimizeRoute_perm exDist [exApt1, exApt2] (some exOrigin) (by simp)

/-- C9: in open-path mode with no starting location, the first element of the
returned route is the first appointment of the input list.  The source reaches
this outcome because the scan starts at the first appointment's own
coordinates: that appointment is at distance `dist c c = 0` from the current
position and no other appointment can be strictly closer than `0`, so the
strict-minimum scan picks it first.  The two metric facts of the haversine
formula that this uses are taken as hypotheses. -/
theorem optimizeRoute_noStart_head (dist : Coordinates → Coordinates → ℚ)
    (appointments : List AppointmentData) (h : appointments ≠ [])
    (hself : ∀ c, dist c c = 0) (hnn : ∀ p q, 0 ≤ dist p q) :
    (optimizeRoute dist appointments none).head? = appointments.head? := by
  unfold optimizeRoute
  by_cases hl : appointments.length ≤ 1
  · simp [hl]
  · simp only [hl, if_false]
    match appointments, h with
    | a :: rest, _ =>
      have hsel : selectLoop dist (fun _ => false) (coordOf a) (a :: rest) 0 (0, none)
          = (0, some (dist (coordOf a) (coordOf a))) := by
        rw [show selectLoop dist (fun _ => false) (coordOf a) (a :: rest) 0 (0, none)
            = selectLoop dist (fun _ => false) (coordOf a) rest 1
                (0, some (dist (coordOf a) (coordOf a))) from by simp [selectLoop]]
        exact selectLoop_frozen dist (fun _ => false) (coordOf a) rest 1 0 _
          (fun x _ => by rw [hself (coordOf a)]; exact not_lt.mpr (hnn _ _))
      rw [nnGo]
      simp [hsel]

/-- Witness for C9 at a concrete two-appointment input with no origin. -/
theorem optimizeRoute_noStart_head_witness :
    (optimizeRoute exDist [exApt1, exApt2] none).head? = ([exApt1, exApt2] : List _).head? :=
  optimizeRoute_noStart_head exDist [exApt1, exApt2] (by simp) exDist_self exDist_nonneg

/-- The constrained greedy loop of the source's `optimizeSingleRoute`: while
more than one stop remains, pick the nearest unvisited stop, skipping the
forced-final `target` (the skip test compares ids and, as in the source, also
checks that more than one stop remains); when exactly one stop is left it is
appended and the loop ends. -/
def osrGo (dist : Coordinates → Coordinates → ℚ) (target : AppointmentData)
    (cur : Coordinates) (unvisited : List AppointmentData) : List AppointmentData :=
  if h : unvisited = [] then []
  else if unvisited.length = 1 then unvisited
  else
    let a := unvisited.get
      ⟨(selectLoop dist (fun x => decide (1 < unvisited.length ∧ x.id = target.id))
          cur unvisited 0 (0, none)).1,
        selectLoop_fst_lt dist _ cur unvisited h⟩
    a :: osrGo dist target (coordOf a)
      (unvisited.eraseIdx
        (selectLoop dist (fun x => decide (1 < unvisited.length ∧ x.id = target.id))
          cur unvisited 0 (0, none)).1)
termination_by unvisited.length
decreasing_by
  have := List.length_eraseIdx_add_one
    (selectLoop_fst_lt dist
      (fun x => decide (1 < unvisited.length ∧ x.id = target.id)) cur unvisited h)
  omega

/-- The source's `optimizeSingleRoute`: run the constrained greedy loop with
`appointments[targetEndIndex]` as the forced-final stop.  All call sites pass
an in-range index; on an out-of-range index the source would fault reading
`.id` of `undefined`, which the embedding renders as an empty route. -/
def optimizeSingleRoute (dist : Coordinates → Coordinates → ℚ)
    (appointments : List AppointmentData) (origin : Coordinates)
    (targetEndIndex : ℕ) : List AppointmentData :=
  match appointments[targetEndIndex]? with
  | some target => osrGo dist target origin appointments
  | none => []

/-- Sum of the distances between consecutive stops of a route (the middle loop
of the source's `calculateRoundTripDistance` and `calculateTotalDistance`). -/
def consecutiveDistance (dist : Coordinates → Coordinates → ℚ) :
    List AppointmentData → ℚ
  | [] => 0
  | [_] => 0
  | a :: b :: rest => dist (coordOf a) (coordOf b) + consecutiveDistance dist (b :: rest)

/-- The source's `calculateRoundTripDistance`: origin to first stop, plus
consecutive legs, plus the return leg from the last stop back to the origin;
`0` for an empty route. -/
def calculateRoundTripDistance (dist : Coordinates → Coordinates → ℚ)
    (route : List AppointmentData) (origin : Coordinates) : ℚ :=
  match route with
  | [] => 0
  | a :: rest =>
      dist origin (coordOf a) + consecutiveDistance dist (a :: rest)
        + dist (coordOf ((a :: rest).getLast (List.cons_ne_nil a rest))) origin

/-- One step of the source's best-candidate loop in `optimizeRoundTripRoute`:
keep the stored best unless the new candidate's round-trip distance is
strictly smaller (`none` models the initial `Infinity`, which any candidate
beats). -/
def bestStep (candidate : ℕ → List AppointmentData) (candidateDistance : ℕ → ℚ)
    (best : List AppointmentData × Option ℚ) (endIndex : ℕ) :
    List AppointmentData × Option ℚ :=
  match best with
  | (_, none) => (candidate endIndex, some (candidateDistance endIndex))
  | (bestRoute, some b) =>
      if candidateDistance endIndex < b then
        (candidate endIndex, some (candidateDistance endIndex))
      else (bestRoute, some b)

/-- The source's `optimizeRoundTripRoute`.  Lists of at most one appointment
are handled directly (one stop with a starting location gets the two-leg
round-trip distance, otherwise `0`).  Otherwise every index is tried as the
forced-final stop and the candidate with the strictly smallest round-trip
distance is kept, starting from `bestTotalDistance = Infinity`. -/
def optimizeRoundTripRoute (dist : Coordinates → Coordinates → ℚ)
    (appointments : List AppointmentData) (startLocation : Option Coordinates) :
    List AppointmentData × ℚ :=
  if appointments.length ≤ 1 then
    (appointments,
      match appointments, startLocation with
      | [a], some s => dist s (coordOf a) + dist (coordOf a) s
      | _, _ => 0)
  else
    let origin := startLocation.getD (coordOf appointments.headI)
    let best := (List.range appointments.length).foldl
      (bestStep (fun endIndex => optimizeSingleRoute dist appointments origin endIndex)
        (fun endIndex =>
          calculateRoundTripDistance dist
            (optimizeSingleRoute dist appointments origin endIndex) origin))
      ([], none)
    (best.1, best.2.getD 0)

/-- The constrained greedy loop never returns an empty route for a non-empty
unvisited pool. -/
lemma osrGo_ne_nil (dist : Coordinates → Coordinates → ℚ) (target : AppointmentData)
    (cur : Coordinates) (l : List AppointmentData) (h : l ≠ []) :
    osrGo dist target cur l ≠ [] := by
  rw [osrGo]
  by_cases h1 : l.length = 1
  · simp [h, h1]
  · simp [h, h1]

/-- If the forced-final `target` is in the unvisited pool and all ids in the
pool are pairwise distinct, the constrained greedy loop ends at `target`. -/
lemma osrGo_getLast (dist : Coordinates → Coordinates → ℚ) (target : AppointmentData) :
    ∀ (n : ℕ) (l : List AppointmentData) (cur : Coordinates), l.length = n →
      target ∈ l → l.Pairwise (fun a b => a.id ≠ b.id) →
      (osrGo dist target cur l).getLast? = some target := by
  intro n
  induction n using Nat.strong_induction_on with
  | _ n ih =>
    intro l cur hn hmem hpw
    have hne : l ≠ [] := List.ne_nil_of_mem hmem
    by_cases h1 : l.length = 1
    · match l, h1 with
      | [x], _ =>
        have hx : target = x := by simpa using hmem
        subst hx
        rw [osrGo]
        simp
    · have hlen2 : 1 < l.length := by
        have : l.length ≠ 0 := by simpa using hne
        omega
      -- find the position of the target and a second, different position
      obtain ⟨⟨p, hp⟩, hpeq⟩ := List.mem_iff_get.mp hmem
      have hex : ∃ x ∈ l, (fun y => decide (1 < l.length ∧ y.id = target.id)) x = false := by
        rcases Nat.lt_or_ge 0 p with hp0 | hp0
        · have h0 : (0 : ℕ) < l.length := by omega
          refine ⟨l.get ⟨0, h0⟩, List.get_mem l 0 h0, ?_⟩
          have hne' : (l.get ⟨0, h0⟩).id ≠ target.id := by
            rw [← hpeq]
            exact List.pairwise_iff_get.mp hpw ⟨0, h0⟩ ⟨p, hp⟩ (Fin.mk_lt_mk.mpr hp0)
          simp only [decide_eq_false_iff_not, not_and]
          intro _
          simpa using hne'
        · have hp0' : p = 0 := by omega
          refine ⟨l.get ⟨1, hlen2⟩, List.get_mem l 1 hlen2, ?_⟩
          have hne' : (l.get ⟨1, hlen2⟩).id ≠ target.id := by
            rw [← hpeq]
            intro hcontra
            exact (List.pairwise_iff_get.mp hpw ⟨p, hp⟩ ⟨1, hlen2⟩
              (Fin.mk_lt_mk.mpr (by omega))) hcontra.symm
          simp only [decide_eq_false_iff_not, not_and]
          intro _
          simpa using hne'
      -- the scan therefore returns the index of a non-target element
      obtain ⟨m, hm⟩ := selectLoop_snd_isSome dist
        (fun x => decide (1 < l.length ∧ x.id = target.id)) cur l 0 0 hex
      rcases selectLoop_spec dist
          (fun x => decide (1 < l.length ∧ x.id = target.id)) cur l 0 (0, none)
        with heq | ⟨j, hj, hskip, hfst, _⟩
      · rw [heq] at hm; simp at hm
      · have hid : (l.get ⟨j, hj⟩).id ≠ target.id := by
          have := of_decide_eq_false hskip
          tauto
        have hneq : l.get ⟨j, hj⟩ ≠ target := fun hc => hid (by rw [hc])
        rw [osrGo]
        simp only [hne, dite_false, h1, if_false]
        have hidx : (selectLoop dist
            (fun x => decide (1 < l.length ∧ x.id = target.id)) cur l 0 (0, none)).1 = j := by
          rw [hfst]; omega
        -- the selected element is l.get ⟨j, hj⟩
        have hsel_lt := selectLoop_fst_lt dist
          (fun x => decide (1 < l.length ∧ x.id = target.id)) cur l hne
        have hget : l.get ⟨(selectLoop dist
              (fun x => decide (1 < l.length ∧ x.id = target.id)) cur l 0 (0, none)).1,
            hsel_lt⟩ = l.get ⟨j, hj⟩ := by
          congr 1
          exact Fin.ext hidx
        rw [hget, hidx]
        -- target survives in the erased pool
        have hmem' : target ∈ l.eraseIdx j := by
          have hperm := get_cons_eraseIdx_perm l j hj
          rcases List.mem_cons.mp (hperm.symm.subset hmem) with hc | hc
          · exact absurd hc.symm hneq
          · exact hc
        have hpw' : (l.eraseIdx j).Pairwise (fun a b => a.id ≠ b.id) :=
          hpw.sublist (List.eraseIdx_sublist l j)
        have hlast := ih (l.eraseIdx j).length
          (by have := List.length_eraseIdx_add_one hj; omega)
          (l.eraseIdx j) (coordOf (l.get ⟨j, hj⟩)) rfl hmem' hpw'
        have hrec_ne : osrGo dist target (coordOf (l.get ⟨j, hj⟩)) (l.eraseIdx j) ≠ [] :=
          osrGo_ne_nil dist target _ _ (List.ne_nil_of_mem hmem')
        match hrec : osrGo dist target (coordOf (l.get ⟨j, hj⟩)) (l.eraseIdx j), hrec_ne with
        | b :: r, _ =>
          rw [List.getLast?_cons_cons]
          rw [hrec] at hlast
          exact hlast

/-- C3: for a list of at least two appointments with pairwise-distinct ids,
any origin and any in-range index `k`, the constrained nearest-neighbor
construction with appointment `k` forced final returns a route whose last
element is appointment `k`. -/
theorem optimizeSingleRoute_getLast (dist : Coordinates → Coordinates → ℚ)
    (appointments : List AppointmentData) (origin : Coordinates) (k : ℕ)
    (h2 : 2 ≤ appointments.length) (hk : k < appointments.length)
    (hids : appointments.Pairwise (fun a b => a.id ≠ b.id)) :
    (optimizeSingleRoute dist appointments origin k).getLast?
      = some (appointments.get ⟨k, hk⟩) := by
  unfold optimizeSingleRoute
  rw [List.getElem?_eq_getElem hk]
  exact osrGo_getLast dist _ appointments.length appointments origin rfl
    (by simpa using List.get_mem appointments ⟨k, hk⟩) hids

/-- Witness for C3: with two concrete appointments and forced-final index `0`,
the returned route ends with the first appointment. -/
theorem optimizeSingleRoute_getLast_witness :
    (optimizeSingleRoute exDist [exApt1, exApt2] exOrigin 0).getLast?
      = some (([exApt1, exApt2] : List _).get ⟨0, by simp⟩) :=
  optimizeSingleRoute_getLast exDist [exApt1, exApt2] exOrigin 0 (by simp) (by simp)
    (by simp [exApt1, exApt2])

/-- Folding the best-candidate step from a finite best `(x, b)` yields the
minimum of `b` and the visited candidates' distances, achieved either by the
initial pair or by one of the visited candidates. -/
lemma foldl_bestStep_some (candidate : ℕ → List AppointmentData)
    (candidateDistance : ℕ → ℚ) :
    ∀ (ks : List ℕ) (x : List AppointmentData) (b : ℚ),
      ∃ y m, ks.foldl (bestStep candidate candidateDistance) (x, some b) = (y, some m) ∧
        m ≤ b ∧
        ((y = x ∧ m = b) ∨ ∃ k ∈ ks, y = candidate k ∧ m = candidateDistance k) ∧
        ∀ j ∈ ks, m ≤ candidateDistance j := by
  intro ks
  induction ks with
  | nil =>
    intro x b
    exact ⟨x, b, rfl, le_refl b, Or.inl ⟨rfl, rfl⟩, by simp⟩
  | cons k rest ih =>
    intro x b
    by_cases hlt : candidateDistance k < b
    · obtain ⟨y, m, heq, hle, hshape, hall⟩ := ih (candidate k) (candidateDistance k)
      refine ⟨y, m, ?_, ?_, ?_, ?_⟩
      · simpa [bestStep, hlt] using heq
      · exact le_of_lt (lt_of_le_of_lt hle hlt)
      · rcases hshape with ⟨rfl, rfl⟩ | ⟨k', hk', hy, hm⟩
        · exact Or.inr ⟨k, by simp, rfl, rfl⟩
        · exact Or.inr ⟨k', by simp [hk'], hy, hm⟩
      · intro j hj
        rcases List.mem_cons.mp hj with rfl | hj'
        · exact hle
        · exact hall j hj'
    · obtain ⟨y, m, heq, hle, hshape, hall⟩ := ih x b
      refine ⟨y, m, ?_, hle, ?_, ?_⟩
      · simpa [bestStep, hlt] using heq
      · rcases hshape with ⟨rfl, rfl⟩ | ⟨k', hk', hy, hm⟩
        · exact Or.inl ⟨rfl, rfl⟩
        · exact Or.inr ⟨k', by simp [hk'], hy, hm⟩
      · intro j hj
        rcases List.mem_cons.mp hj with rfl | hj'
        · exact le_trans hle (not_lt.mp hlt)
        · exact hall j hj'

/-- Folding the best-candidate step over a non-empty index list from the
initial `Infinity` returns some candidate together with its distance, and that
distance is minimal among all visited candidates. -/
lemma foldl_bestStep_none (candidate : ℕ → List AppointmentData)
    (candidateDistance : ℕ → ℚ) (ks : List ℕ) (hne : ks ≠ []) :
    ∃ y m, ks.foldl (bestStep candidate candidateDistance) ([], none) = (y, some m) ∧
      (∃ k ∈ ks, y = candidate k ∧ m = candidateDistance k) ∧
      ∀ j ∈ ks, m ≤ candidateDistance j := by
  match ks, hne with
  | k :: rest, _ =>
    obtain ⟨y, m, heq, hle, hshape, hall⟩ :=
      foldl_bestStep_some candidate candidateDistance rest (candidate k)
        (candidateDistance k)
    refine ⟨y, m, by simpa [bestStep] using heq, ?_, ?_⟩
    · rcases hshape with ⟨rfl, rfl⟩ | ⟨k', hk', hy, hm⟩
      · exact ⟨k, by simp, rfl, rfl⟩
      · exact ⟨k', by simp [hk'], hy, hm⟩
    · intro j hj
      rcases List.mem_cons.mp hj with rfl | hj'
      · exact hle
      · exact hall j hj'

/-- The single-appointment route is its own constrained construction. -/
lemma optimizeSingleRoute_singleton (dist : Coordinates → Coordinates → ℚ)
    (a : AppointmentData) (origin : Coordinates) :
    optimizeSingleRoute dist [a] origin 0 = [a] := by
  have h1 : osrGo dist a origin [a] = [a] := by
    rw [osrGo]
    simp
  unfold optimizeSingleRoute
  simpa using h1

/-- C1: for every non-empty appointment list and every origin, the round-trip
optimizer returns one of the forced-final candidate routes, its returned
`totalDistance` equals the round-trip distance of that returned route, and
that distance is the minimum of the round-trip distances over all forced-final
candidates. -/
theorem optimizeRoundTripRoute_min (dist : Coordinates → Coordinates → ℚ)
    (appointments : List AppointmentData) (o : Coordinates)
    (h : appointments ≠ []) :
    (∃ k, ∃ _ : k < appointments.length,
        (optimizeRoundTripRoute dist appointments (some o)).1
          = optimizeSingleRoute dist appointments o k) ∧
    (optimizeRoundTripRoute dist appointments (some o)).2
      = calculateRoundTripDistance dist
          (optimizeRoundTripRoute dist appointments (some o)).1 o ∧
    ∀ k < appointments.length,
      (optimizeRoundTripRoute dist appointments (some o)).2
        ≤ calculateRoundTripDistance dist
            (optimizeSingleRoute dist appointments o k) o := by
  by_cases hl : appointments.length ≤ 1
  · match appointments, h with
    | [a], _ =>
      have hres : optimizeRoundTripRoute dist [a] (some o)
          = ([a], dist o (coordOf a) + dist (coordOf a) o) := by
        simp [optimizeRoundTripRoute]
      have hcrd : calculateRoundTripDistance dist [a] o
          = dist o (coordOf a) + dist (coordOf a) o := by
        simp [calculateRoundTripDistance, consecutiveDistance]
      refine ⟨⟨0, by simp, ?_⟩, ?_, ?_⟩
      · rw [hres, optimizeSingleRoute_singleton]
      · rw [hres, hcrd]
      · intro k hk
        have hk0 : k = 0 := by simpa using Nat.lt_one_iff.mp (by simpa using hk)
        subst hk0
        rw [hres, optimizeSingleRoute_singleton, hcrd]
  · have hne : List.range appointments.length ≠ [] := by
      simp only [ne_eq, List.range_eq_nil]
      omega
    obtain ⟨y, m, heq, ⟨k, hk, hy, hm⟩, hall⟩ :=
      foldl_bestStep_none
        (fun endIndex => optimizeSingleRoute dist appointments o endIndex)
        (fun endIndex =>
          calculateRoundTripDistance dist
            (optimizeSingleRoute dist appointments o endIndex) o)
        (List.range appointments.length) hne
    have hres : optimizeRoundTripRoute dist appointments (some o) = (y, m) := by
      rw [optimizeRoundTripRoute]
      simp only [hl, if_false, Option.getD_some]
      rw [heq]
      · simp
      · intro a s ha _
        rw [ha] at hl
        simp at hl
    refine ⟨⟨k, List.mem_range.mp hk, by rw [hres, hy]⟩, ?_, ?_⟩
    · rw [hres, hy, hm]
    · intro j hj
      rw [hres]
      exact hall j (List.mem_range.mpr hj)

/-- Witness for C1 at a concrete three-appointment input. -/
theorem optimizeRoundTripRoute_min_witness :
    (∃ k, ∃ _ : k < ([exApt1, exApt2, exApt3] : List _).length,
        (optimizeRoundTripRoute exDist [exApt1, exApt2, exApt3] (some exOrigin)).1
          = optimizeSingleRoute exDist [exApt1, exApt2, exApt3] exOrigin k) ∧
    (optimizeRoundTripRoute exDist [exApt1, exApt2, exApt3] (some exOrigin)).2
      = calculateRoundTripDistance exDist
          (optimizeRoundTripRoute exDist [exApt1, exApt2, exApt3] (some exOrigin)).1
          exOrigin ∧
    ∀ k < ([exApt1, exApt2, exApt3] : List _).length,
      (optimizeRoundTripRoute exDist [exApt1, exApt2, exApt3] (some exOrigin)).2
        ≤ calculateRoundTripDistance exDist
            (optimizeSingleRoute exDist [exApt1, exApt2, exApt3] exOrigin k) exOrigin :=
  optimizeRoundTripRoute_min exDist [exApt1, exApt2, exApt3] exOrigin (by simp)

/-- C4: the round-trip optimizer on zero stops returns the empty route with
total distance `0`; on exactly one stop it returns that stop, with the two-leg
round-trip distance when a starting location is given and `0` otherwise. -/
theorem optimizeRoundTripRoute_small (dist : Coordinates → Coordinates → ℚ) :
    (∀ sl : Option Coordinates, optimizeRoundTripRoute dist [] sl = ([], 0)) ∧
    (∀ a : AppointmentData, optimizeRoundTripRoute dist [a] none = ([a], 0)) ∧
    (∀ (a : AppointmentData) (s : Coordinates),
        optimizeRoundTripRoute dist [a] (some s)
          = ([a], dist s (coordOf a) + dist (coordOf a) s)) := by
  refine ⟨fun sl => ?_, fun a => ?_, fun a s => ?_⟩
  · cases sl <;> simp [optimizeRoundTripRoute]
  · simp [optimizeRoundTripRoute]
  · simp [optimizeRoundTripRoute]

/-- The source's `calculateTotalDistance` (open-path total): `0` for routes of
at most one stop; otherwise the leg from the starting location to the first
stop (when a starting location is given) plus the consecutive legs, with no
return leg. -/
def calculateTotalDistance (dist : Coordinates → Coordinates → ℚ)
    (route : List AppointmentData) (startLocation : Option Coordinates) : ℚ :=
  if route.length ≤ 1 then 0
  else
    (match startLocation, route with
      | some s, a :: _ => dist s (coordOf a)
      | _, _ => 0) + consecutiveDistance dist route

/-- C10: the open-path total-distance computation returns `0` for every route
of length at most one, with or without a starting location — in particular a
single stop with an origin reports `0`, omitting the origin leg — while for a
two-stop route with an origin the same function does count the origin leg. -/
theorem calculateTotalDistance_short (dist : Coordinates → Coordinates → ℚ) :
    (∀ (route : List AppointmentData) (sl : Option Coordinates),
        route.length ≤ 1 → calculateTotalDistance dist route sl = 0) ∧
    (∀ (a b : AppointmentData) (s : Coordinates),
        calculateTotalDistance dist [a, b] (some s)
          = dist s (coordOf a) + dist (coordOf a) (coordOf b)) := by
  constructor
  · intro route sl hlen
    simp [calculateTotalDistance, hlen]
  · intro a b s
    simp [calculateTotalDistance, consecutiveDistance]

/-- Witness for C10: a single stop with a starting location set reports a
total distance of `0`. -/
theorem calculateTotalDistance_short_witness :
    calculateTotalDistance exDist [exApt1] (some exOrigin) = 0 :=
  (calculateTotalDistance_short exDist).1 [exApt1] (some exOrigin) (by decide)

/-- Travel minutes for one leg, as the source computes them:
`Math.ceil(distance * travelTimePerMile)` from the previous position when
there is one, and no travel for the first stop without an origin. -/
def travelMinutes (dist : Coordinates → Coordinates → ℚ) (travelTimePerMile : ℚ)
    (prev : Option Coordinates) (a : AppointmentData) : ℤ :=
  match prev with
  | some p => ⌈dist p (coordOf a) * travelTimePerMile⌉
  | none => 0

/-- The accumulation loop of the source's `generateAppointmentTimes`: walk the
route keeping the previous position (the origin, if any, before the first
stop) and the running clock in minutes; each stop's arrival time is recorded
after adding its travel leg, and its service duration is added before moving
on. -/
def genTimesAux (dist : Coordinates → Coordinates → ℚ) (travelTimePerMile : ℚ) :
    Option Coordinates → ℤ → List AppointmentData → List ℤ
  | _, _, [] => []
  | prev, t, a :: rest =>
      (t + travelMinutes dist travelTimePerMile prev a) ::
        genTimesAux dist travelTimePerMile (some (coordOf a))
          (t + travelMinutes dist travelTimePerMile prev a + a.duration) rest

/-- The source's `generateAppointmentTimes` restricted to its list of arrival
instants (the source additionally formats them as clock strings, and computes
an optional return time after the loop; neither affects the arrival
sequence).  The open-path variant of the source is the `origin = none` case. -/
def generateAppointmentTimes (dist : Coordinates → Coordinates → ℚ)
    (route : List AppointmentData) (startTime : ℤ) (travelTimePerMile : ℚ)
    (origin : Option Coordinates) : List ℤ :=
  genTimesAux dist travelTimePerMile origin startTime route

/-- The times produced by the accumulation loop form a non-decreasing chain
and start no earlier than the running clock, provided distances are
non-negative, the rate is non-negative and service durations are
non-negative. -/
lemma genTimesAux_chain (dist : Coordinates → Coordinates → ℚ)
    (travelTimePerMile : ℚ) (hd : ∀ p q, 0 ≤ dist p q) (hr : 0 ≤ travelTimePerMile) :
    ∀ (route : List AppointmentData) (prev : Option Coordinates) (t : ℤ),
      (∀ a ∈ route, 0 ≤ a.duration) →
      List.Chain' (· ≤ ·) (genTimesAux dist travelTimePerMile prev t route) ∧
      ∀ x ∈ (genTimesAux dist travelTimePerMile prev t route).head?, t ≤ x := by
  intro route
  induction route with
  | nil => intro prev t _; exact ⟨List.chain'_nil, by simp [genTimesAux]⟩
  | cons a rest ih =>
    intro prev t hdur
    have htr : 0 ≤ travelMinutes dist travelTimePerMile prev a := by
      cases prev with
      | none => simp [travelMinutes]
      | some p =>
        simpa [travelMinutes] using Int.ceil_nonneg (mul_nonneg (hd p (coordOf a)) hr)
    have hda : 0 ≤ a.duration := hdur a (by simp)
    have hrest : ∀ x ∈ rest, 0 ≤ x.duration := fun x hx => hdur x (by simp [hx])
    obtain ⟨hc, hh⟩ := ih (some (coordOf a))
      (t + travelMinutes dist travelTimePerMile prev a + a.duration) hrest
    constructor
    · rw [genTimesAux]
      refine List.chain'_cons'.mpr ⟨?_, hc⟩
      intro y hy
      have := hh y hy
      omega
    · intro x hx
      rw [genTimesAux] at hx
      simp only [List.head?_cons, Option.mem_def, Option.some.injEq] at hx
      omega

/-- C5: for every route, start time, positive `minutesPerMile` and
non-negative service durations (and non-negative leg distances, as the
haversine formula guarantees), the arrival instants produced by the schedule
generator are monotonically non-decreasing in route order. -/
theorem generateAppointmentTimes_monotone (dist : Coordinates → Coordinates → ℚ)
    (route : List AppointmentData) (startTime : ℤ) (travelTimePerMile : ℚ)
    (origin : Option Coordinates) (hd : ∀ p q, 0 ≤ dist p q)
    (hr : 0 < travelTimePerMile) (hdur : ∀ a ∈ route, 0 ≤ a.duration) :
    List.Chain' (· ≤ ·)
      (generateAppointmentTimes dist route startTime travelTimePerMile origin) :=
  (genTimesAux_chain dist travelTimePerMile hd (le_of_lt hr) route origin
    startTime hdur).1

/-- Witness for C5 at a concrete two-stop route with an origin, a 09:00 start
(minute 540) and the source's default rate of 3 minutes per mile. -/
theorem generateAppointmentTimes_monotone_witness :
    List.Chain' (· ≤ ·)
      (generateAppointmentTimes exDist [exApt1, exApt2] 540 3 (some exOrigin)) :=
  generateAppointmentTimes_monotone exDist [exApt1, exApt2] 540 3 (some exOrigin)
    exDist_nonneg (by norm_num) (by decide)

/-- The full haversine-derived matrix the caller builds as fallback:
`origins.map(origin => destinations.map(dest => geo(origin, dest)))`. -/
def geometricMatrix (geo : Coordinates → Coordinates → ℚ)
    (origins destinations : List Coordinates) : List (List ℚ) :=
  origins.map (fun origin => destinations.map (fun dest => geo origin dest))

/-- The front-end's `calculateDistanceMatrix`: empty inputs yield an empty
matrix; otherwise the precise provider's response is used when the call
succeeds, and on any whole-call failure (network error or non-OK response,
collapsed here into the `Except.error` case) the full geometric matrix is
substituted.  The return type has no error channel: the function always
returns a matrix, as the source's `catch` swallows the failure. -/
def calculateDistanceMatrix (geo : Coordinates → Coordinates → ℚ)
    (origins destinations : List Coordinates)
    (response : Except Unit (List (List ℚ))) : List (List ℚ) :=
  if origins.length = 0 ∨ destinations.length = 0 then []
  else
    match response with
    | Except.ok matrix => matrix
    | Except.error _ => geometricMatrix geo origins destinations

/-- C6: when the pairwise distance-matrix request fails as a whole, the
optimizer's matrix is the full haversine matrix for every origin/destination
pair, and no error reaches the caller (the function is total and
matrix-valued). -/
theorem calculateDistanceMatrix_fallback (geo : Coordinates → Coordinates → ℚ)
    (origins destinations : List Coordinates) (e : Unit)
    (h1 : origins ≠ []) (h2 : destinations ≠ []) :
    calculateDistanceMatrix geo origins destinations (Except.error e)
      = geometricMatrix geo origins destinations := by
  unfold calculateDistanceMatrix
  have hcond : ¬(origins.length = 0 ∨ destinations.length = 0) := by
    simp [List.length_eq_zero, h1, h2]
  rw [if_neg hcond]

/-- Witness for C6 at concrete coordinate lists. -/
theorem calculateDistanceMatrix_fallback_witness :
    calculateDistanceMatrix exDist [exOrigin] [⟨0, 1⟩, ⟨0, 5⟩] (Except.error ())
      = geometricMatrix exDist [exOrigin] [⟨0, 1⟩, ⟨0, 5⟩] :=
  calculateDistanceMatrix_fallback exDist [exOrigin] [⟨0, 1⟩, ⟨0, 5⟩] ()
    (by simp) (by simp)

/-- `List.map` with the element's position, starting the count at `k` (the
index bookkeeping of the API route's `rows.map((row, originIndex) => ...)`). -/
def mapIdxFrom {α β : Type} (f : ℕ → α → β) : ℕ → List α → List β
  | _, [] => []
  | k, a :: rest => f k a :: mapIdxFrom f (k + 1) rest

lemma mapIdxFrom_length {α β : Type} (f : ℕ → α → β) :
    ∀ (k : ℕ) (l : List α), (mapIdxFrom f k l).length = l.length := by
  intro k l
  induction l generalizing k with
  | nil => rfl
  | cons a rest ih => simp [mapIdxFrom, ih]

lemma mapIdxFrom_getD {α β : Type} (f : ℕ → α → β) (d : β) (d' : α) :
    ∀ (l : List α) (k i : ℕ), i < l.length →
      (mapIdxFrom f k l).getD i d = f (k + i) (l.getD i d') := by
  intro l
  induction l with
  | nil => intro k i hi; simp at hi
  | cons a rest ih =>
    intro k i hi
    cases i with
    | zero => simp [mapIdxFrom]
    | succ i =>
      have hi' : i < rest.length := by simpa using hi
      have := ih (k + 1) i hi'
      rw [show k + 1 + i = k + (i + 1) by omega] at this
      simpa [mapIdxFrom] using this

/-- The conversion factor `0.000621371` (meters to miles) of the API route. -/
def milesPerMeter : ℚ := 621371 / 1000000000

/-- The distance-matrix API route's construction of the response matrix from
the precise provider's rows: a cell whose element succeeded (`some meters`)
keeps the precise value converted to miles, a cell whose element failed
(`none`) is replaced by the haversine estimate for the same
origin/destination pair. -/
def processDistanceMatrixRows (geo : Coordinates → Coordinates → ℚ)
    (origins destinations : List Coordinates)
    (rows : List (List (Option ℚ))) : List (List ℚ) :=
  mapIdxFrom (fun originIndex row =>
    mapIdxFrom (fun destIndex element =>
      match element with
      | some meters => meters * milesPerMeter
      | none =>
          geo (origins.getD originIndex default) (destinations.getD destIndex default))
      0 row) 0 rows

/-- C7: in the per-cell fallback, every succeeding cell of the returned matrix
is the precise value converted from meters to miles, and only a failing cell
is replaced by the haversine estimate for the same coordinate pair. -/
theorem processDistanceMatrixRows_cell (geo : Coordinates → Coordinates → ℚ)
    (origins destinations : List Coordinates) (rows : List (List (Option ℚ)))
    (i j : ℕ) (hio : i < origins.length) (hjd : j < destinations.length)
    (hi : i < rows.length) (hj : j < (rows.getD i []).length) :
    ((processDistanceMatrixRows geo origins destinations rows).getD i []).getD j 0
      = match (rows.getD i []).getD j none with
        | some meters => meters * milesPerMeter
        | none => geo (origins.get ⟨i, hio⟩) (destinations.get ⟨j, hjd⟩) := by
  unfold processDistanceMatrixRows
  rw [mapIdxFrom_getD _ ([] : List ℚ) ([] : List (Option ℚ)) rows 0 i hi]
  rw [mapIdxFrom_getD _ (0 : ℚ) (none : Option ℚ) (rows.getD i []) 0 j hj]
  simp only [Nat.zero_add]
  rw [List.getD_eq_getElem origins default hio, List.getD_eq_getElem destinations default hjd]
  simp

/-- Witness for C7: one succeeding and one failing cell of a concrete 1×2
response. -/
theorem processDistanceMatrixRows_cell_witness :
    (((processDistanceMatrixRows exDist [exOrigin] [⟨0, 1⟩, ⟨0, 5⟩]
          [[some 1609, none]]).getD 0 []).getD 0 0
        = match (([[some 1609, none]] : List (List (Option ℚ))).getD 0 []).getD 0 none with
          | some meters => meters * milesPerMeter
          | none => exDist (([exOrigin] : List _).get ⟨0, by simp⟩)
              (([⟨0, 1⟩, ⟨0, 5⟩] : List Coordinates).get ⟨0, by simp⟩)) ∧
    (((processDistanceMatrixRows exDist [exOrigin] [⟨0, 1⟩, ⟨0, 5⟩]
          [[some 1609, none]]).getD 0 []).getD 1 0
        = match (([[some 1609, none]] : List (List (Option ℚ))).getD 0 []).getD 1 none with
          | some meters => meters * milesPerMeter
          | none => exDist (([exOrigin] : List _).get ⟨0, by simp⟩)
              (([⟨0, 1⟩, ⟨0, 5⟩] : List Coordinates).get ⟨1, by simp⟩)) :=
  ⟨processDistanceMatrixRows_cell exDist [exOrigin] [⟨0, 1⟩, ⟨0, 5⟩] [[some 1609, none]]
      0 0 (by simp) (by simp) (by simp) (by simp),
    processDistanceMatrixRows_cell exDist [exOrigin] [⟨0, 1⟩, ⟨0, 5⟩] [[some 1609, none]]
      0 1 (by simp) (by simp) (by simp) (by simp)⟩

/-- The shape of the optimize API route's response: either a JSON error with
an HTTP status, or a JSON success payload with the optimized route and its
total distance. -/
inductive PostResponse where
  | jsonError (status : ℕ) (message : String)
  | jsonOk (route : List AppointmentData) (totalDistance : ℚ)
deriving DecidableEq

/-- The optimize API route's POST handler after the appointments are loaded:
an empty appointment list is answered with status 400 and the error message,
before any optimization runs; otherwise the round-trip optimizer's result is
returned.  The second component counts the network requests made to the
pairwise distance provider — this handler computes every distance in-process
with the haversine `calculateDistance`, so it is `0` on every path, and in
particular on the empty-input path, which returns before any optimization
work. -/
def handleOptimizePost (dist : Coordinates → Coordinates → ℚ)
    (appointments : List AppointmentData)
    (startingLocation : Option Coordinates) : PostResponse × ℕ :=
  if appointments.length = 0 then
    (PostResponse.jsonError 400 "No appointments found to optimize", 0)
  else
    (PostResponse.jsonOk (optimizeRoundTripRoute dist appointments startingLocation).1
      (optimizeRoundTripRoute dist appointments startingLocation).2, 0)

/-- C8: with an empty stop list the handler fails with the 400 (user-
correctable) error response — the concrete form of the spec's
`EmptyInputError` — produces no optimization result, and performs no network
calls to the distance provider. -/
theorem handleOptimizePost_empty (dist : Coordinates → Coordinates → ℚ)
    (startingLocation : Option Coordinates) :
    handleOptimizePost dist [] startingLocation
      = (PostResponse.jsonError 400 "No appointments found to optimize", 0) := rfl
